import Mathlib

/-!
Verification development for the recurrence-rule engine of `ambition_utils`
(`ambition_utils/rrule/models.py`), as a shallow embedding in Lean 4.

Modelling conventions:

* Naive datetimes are `Int` minutes since 1970-01-01 00:00 (no leap seconds).
  Calendar days are uniform 1440-minute intervals on a naive timeline, which
  matches Python `datetime` arithmetic on naive values.
* A time zone (`TZ`) is a standard offset, a DST offset and one DST window
  given by its UTC start/end instants.  `pytz.localize` with the default
  `is_dst=False` is modelled by `TZ.chooseOffset`: a uniquely valid offset is
  used as-is, an ambiguous local time resolves to the standard offset, and a
  non-existent local time is resolved the way pytz does it (localize six
  hours earlier, keep that offset).
* `fleming.convert_to_tz(dt, tz, return_naive=True)` on a naive datetime
  treats it as UTC; it is `TZ.toLocal`.  `fleming.attach_tz_if_none` plus
  conversion to UTC (`RRule.convert_to_utc`) is `TZ.localizeToUtc`.
  `fleming.add_timedelta(dt, days, within_tz=tz)` performs the day addition
  on the wall clock of `tz` and re-localizes, which is how `RRule.offset`
  models the non-reversed branch.
* The dateutil `rrule` is embedded for the parameter subset the engine's
  specified behaviours exercise: `freq` in DAILY/WEEKLY, `interval`,
  `dtstart`, `count`, `until` (inclusive), plus an optional exclusion rule
  combined as in `rruleset` (`rrule` + `exrule`).  Occurrences form an
  arithmetic progression `dtstart + n * step`.  String (de)serialisation of
  `dtstart`/`until` is the identity here because params are structured.
* Python exceptions are modelled with `Except Unit`.  Database persistence
  is modelled as lists of `RRule` values updated by pure functions, and
  `datetime.utcnow()` as an explicit `now : Int` parameter.
-/

/-- Days since 1970-01-01 of a proleptic Gregorian civil date
(standard civil-from-days arithmetic, floor division). -/
def daysFromCivil (y m d : Int) : Int :=
  let y2 := if m ≤ 2 then y - 1 else y
  let era := y2 / 400
  let yoe := y2 - era * 400
  let mp := (m + 9) % 12
  let doy := (153 * mp + 2) / 5 + d - 1
  let doe := yoe * 365 + yoe / 4 - yoe / 100 + doy
  era * 146097 + doe - 719468

/-- Naive datetime as minutes since 1970-01-01 00:00. -/
def dtMin (y m d hh mm : Int) : Int :=
  daysFromCivil y m d * 1440 + hh * 60 + mm

/-- A time zone with a standard offset, a DST offset and a single DST window
(in effect for UTC instants `u` with `dstStartUtc ≤ u < dstEndUtc`).
Offsets are minutes east of UTC. -/
structure TZ where
  stdOffset : Int
  dstOffset : Int
  dstStartUtc : Int
  dstEndUtc : Int
deriving DecidableEq

/-- UTC offset in effect at a UTC instant. -/
def TZ.offsetAtUtc (z : TZ) (u : Int) : Int :=
  if z.dstStartUtc ≤ u ∧ u < z.dstEndUtc then z.dstOffset else z.stdOffset

/-- `fleming.convert_to_tz(utc_naive, zone, return_naive=True)`: the local
wall clock of a UTC instant. -/
def TZ.toLocal (z : TZ) (u : Int) : Int := u + z.offsetAtUtc u

/-- The offset `pytz.localize` would attach to an existent or ambiguous
naive local datetime with `is_dst=False`: the standard offset is tried
first (so an ambiguous time resolves to standard), then the DST offset;
`none` for a non-existent (spring-forward gap) local time. -/
def TZ.chooseOffsetCore (z : TZ) (l : Int) : Option Int :=
  if z.offsetAtUtc (l - z.stdOffset) = z.stdOffset then some z.stdOffset
  else if z.offsetAtUtc (l - z.dstOffset) = z.dstOffset then some z.dstOffset
  else none

/-- The offset `pytz.localize(dt, is_dst=False)` attaches, including the
non-existent case, which pytz resolves by localizing six hours earlier and
keeping that offset. -/
def TZ.chooseOffset (z : TZ) (l : Int) : Int :=
  if z.offsetAtUtc (l - z.stdOffset) = z.stdOffset then z.stdOffset
  else if z.offsetAtUtc (l - z.dstOffset) = z.dstOffset then z.dstOffset
  else if z.offsetAtUtc (l - 360 - z.stdOffset) = z.stdOffset then z.stdOffset
  else if z.offsetAtUtc (l - 360 - z.dstOffset) = z.dstOffset then z.dstOffset
  else z.stdOffset

/-- Localize a naive local datetime (pytz `is_dst=False`) and convert the
result to naive UTC. -/
def TZ.localizeToUtc (z : TZ) (l : Int) : Int := l - z.chooseOffset l

/-- Well-formedness of a zone: DST is ahead of standard time by at most six
hours and the DST window is at least as long as the shift. Every real pytz
zone the engine is used with satisfies this. -/
def TZ.WF (z : TZ) : Prop :=
  z.stdOffset ≤ z.dstOffset ∧
  z.dstOffset - z.stdOffset ≤ 360 ∧
  z.dstStartUtc + (z.dstOffset - z.stdOffset) ≤ z.dstEndUtc

instance (z : TZ) : Decidable z.WF := by
  unfold TZ.WF
  infer_instance

/-- UTC as a `TZ` (no DST window). -/
def tzUTC : TZ := ⟨0, 0, 0, 0⟩

/-- Europe/Kiev around 2022: EET (UTC+2) standard, EEST (UTC+3) DST,
DST window from 2022-03-27T01:00Z to 2022-10-30T01:00Z. -/
def tzKiev2022 : TZ :=
  ⟨120, 180, dtMin 2022 3 27 1 0, dtMin 2022 10 30 1 0⟩

/-- The dateutil frequencies the engine's specified behaviours exercise. -/
inductive Freq
  | DAILY
  | WEEKLY
deriving DecidableEq

/-- Minutes of one frequency unit on the naive timeline. -/
def Freq.stepMinutes : Freq → Int
  | .DAILY => 1440
  | .WEEKLY => 10080

/-- The rrule parameter dictionary (`rrule_params`), restricted to the
modelled subset.  `dtstart` is a naive local datetime; `until` is
inclusive, as in dateutil. -/
structure RRuleParams where
  freq : Freq
  interval : Int
  dtstart : Int
  count : Option Int
  until_ : Option Int
deriving DecidableEq

/-- Distance between consecutive occurrences in minutes. -/
def RRuleParams.step (p : RRuleParams) : Int := p.interval * p.freq.stepMinutes

/-- The `n`-th occurrence of the (unexcluded) series. -/
def RRuleParams.occ (p : RRuleParams) (n : Int) : Int := p.dtstart + n * p.step

/-- Whether index `n` is inside the series bounds (`count` / `until`). -/
def RRuleParams.inBounds (p : RRuleParams) (n : Int) : Bool :=
  decide (0 ≤ n) &&
  (match p.count with
   | some c => decide (n < c)
   | none => true) &&
  (match p.until_ with
   | some u => decide (p.occ n ≤ u)
   | none => true)

/-- Index of the first occurrence strictly after `t` (ignoring bounds). -/
def RRuleParams.afterIndex (p : RRuleParams) (t : Int) : Int :=
  max 0 ((t - p.dtstart) / p.step + 1)

/-- `rrule.after(t)` for a single rule: the first occurrence strictly after
`t`, or `none` when the bounded series is exhausted. -/
def RRuleParams.seriesAfter (p : RRuleParams) (t : Int) : Option Int :=
  if p.inBounds (p.afterIndex t) then some (p.occ (p.afterIndex t)) else none

/-- Whether `t` is an occurrence of the series (used for exclusion rules). -/
def RRuleParams.isOccurrence (p : RRuleParams) (t : Int) : Bool :=
  decide (0 < p.step) &&
  decide ((t - p.dtstart) % p.step = 0) &&
  p.inBounds ((t - p.dtstart) / p.step)

/-- Search fuel for skipping excluded occurrences.  A bounded exclusion rule
excludes at most `count` occurrences, or at most the number of primary steps
up to `until`; an unbounded exclusion progression can exclude consecutive
primary occurrences only for `lcm/step ≤ e.step` many steps.  The fuel is
a computable upper bound on the number of skips needed; when the whole
series is excluded the source would iterate forever and the model answers
`none`. -/
def exclFuel (p e : RRuleParams) (t : Int) : Nat :=
  match e.count with
  | some c => c.toNat + 1
  | none =>
    match e.until_ with
    | some u => ((u - t) / p.step + 2).toNat + 1
    | none => e.step.toNat + 2

/-- One fuel-bounded search step for `rruleset.after` with an exclusion. -/
def rruleSetAfterGo (p e : RRuleParams) : Nat → Int → Option Int
  | 0, _ => none
  | Nat.succ fuel, t =>
    match p.seriesAfter t with
    | none => none
    | some x => if e.isOccurrence x then rruleSetAfterGo p e fuel x else some x

/-- `rruleset.after(t)`: first occurrence of the primary rule strictly after
`t` that the optional exclusion rule does not also produce. -/
def rruleSetAfter (p : RRuleParams) (e : Option RRuleParams) (t : Int) : Option Int :=
  match e with
  | none => p.seriesAfter t
  | some ex => rruleSetAfterGo p ex (exclFuel p ex t) t

/-- `rruleset[0]`: the first element of the combined set, `none` when the
set is empty (where Python raises `IndexError`). -/
def rruleSetFirst (p : RRuleParams) (e : Option RRuleParams) : Option Int :=
  rruleSetAfter p e (p.dtstart - 1)

/-- The persisted `RRule` model state (the fields the engine reads/writes).
`id = none` models an unsaved row (`pk is None`); datetime fields are naive
UTC instants. -/
structure RRule where
  id : Option Int
  rrule_params : RRuleParams
  rrule_exclusion_params : Option RRuleParams
  time_zone : TZ
  last_occurrence : Option Int
  next_occurrence : Option Int
  occurrence_handler_path : String
  related_object_id : Option Int
  related_object_handler_name : Option String
  day_offset : Option Int
  time_last_handled : Option Int
deriving DecidableEq

/-- `RRule.offset`: shift a naive datetime by `day_offset` days; the
non-reversed direction is `fleming.add_timedelta(dt, days, within_tz=zone)`:
treat `dt` as UTC, convert to the zone's wall clock (offset `o0`), add the
days to the wall clock, then `dst_normalize` — pytz-normalize the shifted
wall clock still carrying the pre-addition offset `o0` and keep the wall
clock with the normalized offset — and convert back to naive UTC.  The
reversed direction is plain naive subtraction.  A falsy (`None`/`0`)
`day_offset` returns `dt` unchanged. -/
def RRule.offset (r : RRule) (dt : Int) (reverse : Bool) : Int :=
  match r.day_offset with
  | none => dt
  | some k =>
    if k = 0 then dt
    else if reverse then dt - k * 1440
    else
      let o0 := r.time_zone.offsetAtUtc dt
      let w := dt + o0 + k * 1440
      w - r.time_zone.offsetAtUtc (w - o0)

/-- `RRule.convert_to_utc`: attach the rule's zone to a naive datetime
(pytz `is_dst=False`) and convert to naive UTC. -/
def RRule.convert_to_utc (r : RRule) (dt : Int) : Int :=
  r.time_zone.localizeToUtc dt

/-- `rrule_params` with the limiting keys popped (the `force` branch of
`get_next_occurrence`). -/
def stripBounds (p : RRuleParams) : RRuleParams :=
  { p with count := none, until_ := none }

/-- `RRule.get_next_occurrence(last_occurrence, calculate_offset, force)`.
Returns the computed occurrence together with the rule's `rrule_params`
after the call: the `force` branch pops `count`/`until` from a working copy
and restores the original dict before returning, so the resulting params
are the rule's original params. -/
def RRule.get_next_occurrence (r : RRule) (now : Int) (last_occurrence : Option Int)
    (calculate_offset : Bool) (force : Bool) : Option Int × RRuleParams :=
  let last0 : Int := ((last_occurrence.orElse fun _ => r.last_occurrence).getD now)
  let lastLocal0 := r.time_zone.toLocal last0
  let lastLocal := if calculate_offset then r.offset lastLocal0 true else lastLocal0
  let next0 := rruleSetAfter r.rrule_params r.rrule_exclusion_params lastLocal
  let next1 :=
    if next0 = none ∧ force then
      rruleSetAfter (stripBounds r.rrule_params) r.rrule_exclusion_params lastLocal
    else next0
  let next2 := next1.map (fun n =>
    let nu := r.convert_to_utc n
    if calculate_offset then r.offset nu false else nu)
  (next2, r.rrule_params)

/-- Result of `RRule.update_next_occurrence`: the new model state, the
Python return value (`none` models Python `None`, `some false` models
`False`), and the `update_fields` list passed to `save` (or `none` when no
save happened). -/
structure UpdateResult where
  state : RRule
  ret : Option Bool
  savedFields : Option (List String)
deriving DecidableEq

/-- `RRule.update_next_occurrence(save)`. -/
def RRule.update_next_occurrence (r : RRule) (now : Int) (save : Bool) : UpdateResult :=
  match r.next_occurrence with
  | none => ⟨r, none, none⟩
  | some nxt =>
    if now < nxt then ⟨r, some false, none⟩
    else
      let r1 := { r with last_occurrence := some nxt }
      let r2 := { r1 with
        next_occurrence := (r1.get_next_occurrence now (some nxt) true false).1 }
      ⟨r2, none, if save then some ["last_occurrence", "next_occurrence"] else none⟩

/-- `RRule.refresh_next_occurrence(current_time)`. -/
def RRule.refresh_next_occurrence (r : RRule) (now : Int) (current_time : Option Int) : RRule :=
  let ct := current_time.getD now
  match (r.get_next_occurrence now (some ct) true false).1 with
  | some n =>
    if now < n then { r with next_occurrence := some (r.offset n false) } else r
  | none => { r with next_occurrence := none }

/-- `RRule.set_date_objects` (the body of `pre_save_hooks`): for a new rule
(no pk and no last occurrence) seed `next_occurrence` from the first element
of the rule set, converted to UTC and offset; `rruleset[0]` raises
`IndexError` (modelled as `Except.error`) when the series is empty.  The
params string normalization is the identity on structured params. -/
def RRule.set_date_objects (r : RRule) : Except Unit RRule :=
  if r.id = none ∧ r.last_occurrence = none then
    match rruleSetFirst r.rrule_params r.rrule_exclusion_params with
    | none => Except.error ()
    | some d0 =>
      Except.ok { r with next_occurrence := some (r.offset (r.convert_to_utc d0) false) }
  else Except.ok r

/-- `RRule.save`: run the pre-save hooks, then persist (a new row gets a
fresh primary key). -/
def RRule.save (r : RRule) (newId : Int) : Except Unit RRule :=
  match r.set_date_objects with
  | Except.error e => Except.error e
  | Except.ok r1 => Except.ok { r1 with id := some (r1.id.getD newId) }

/-- `RRule.clone`: deep copy, clear the pk, save. -/
def RRule.clone (r : RRule) (newId : Int) : Except Unit RRule :=
  ({ r with id := none }).save newId

/-- `RRule.clone_with_day_offset`: deep copy, clear pk, set `day_offset`,
offset the copied `next_occurrence`, save.  When `next_occurrence` is
`None` and `day_offset` is truthy the source raises (`fleming` is handed
`None`). -/
def RRule.clone_with_day_offset (r : RRule) (day_offset : Int) (newId : Int) :
    Except Unit RRule :=
  let c := { r with id := none, day_offset := some day_offset }
  match c.next_occurrence with
  | none => if day_offset = 0 then c.save newId else Except.error ()
  | some n => ({ c with next_occurrence := some (c.offset n false) }).save newId

/-- Iteration fuel for the `get_dates` while loop: enough for `numDates`
appends plus the occurrences filtered out by `start_date`. -/
def getDatesFuel (p : RRuleParams) (numDates : Nat) (startDate : Option Int) : Nat :=
  numDates +
  (match startDate with
   | none => 0
   | some s => ((s - p.dtstart) / p.step + 2).toNat)

/-- The `while len(dates) < num_dates` loop of `get_dates`. -/
def getDatesGo (r : RRule) (now : Int) (startDate : Option Int) (numDates : Nat) :
    Nat → Int → List Int → List Int
  | 0, _, acc => acc
  | Nat.succ fuel, d, acc =>
    if acc.length < numDates then
      match (r.get_next_occurrence now (some d) false false).1 with
      | some d2 =>
        getDatesGo r now startDate numDates fuel d2
          (if startDate.all (fun s => decide (s < d2)) then acc ++ [r.offset d2 false] else acc)
      | none => acc
    else acc

/-- `RRule.get_dates(num_dates, start_date)`.  The `assert num_dates > 0`
and the pre-save hooks run before the `try` block, so their exceptions
escape; everything inside the `try` is swallowed, returning the dates
accumulated so far (an empty rule set yields `[]`). -/
def RRule.get_dates (r : RRule) (now : Int) (num_dates : Int) (start_date : Option Int) :
    Except Unit (List Int) :=
  if num_dates ≤ 0 then Except.error ()
  else
    match r.set_date_objects with
    | Except.error e => Except.error e
    | Except.ok r1 =>
      Except.ok
        (match rruleSetFirst r1.rrule_params r1.rrule_exclusion_params with
         | none => []
         | some d0 =>
           let d0u := r1.convert_to_utc d0
           let acc0 :=
             if start_date.all (fun s => decide (s < d0u)) then [r1.offset d0u false] else []
           getDatesGo r1 now start_date num_dates.toNat
             (getDatesFuel r1.rrule_params num_dates.toNat start_date) d0u acc0)

/-- Decidable equality for `Except` results. -/
instance instDecEqExcept {e a : Type} [DecidableEq e] [DecidableEq a] :
    DecidableEq (Except e a) := fun x y =>
  match x, y with
  | Except.error v, Except.error w =>
    if h : v = w then isTrue (by rw [h]) else isFalse (by intro hc; cases hc; exact h rfl)
  | Except.error _, Except.ok _ => isFalse (by intro hc; cases hc)
  | Except.ok _, Except.error _ => isFalse (by intro hc; cases hc)
  | Except.ok v, Except.ok w =>
    if h : v = w then isTrue (by rw [h]) else isFalse (by intro hc; cases hc; exact h rfl)

/-- Strict order on nullable instants with SQL `NULLS FIRST` semantics. -/
def optLtB : Option Int → Option Int → Bool
  | none, none => false
  | none, some _ => true
  | some _, none => false
  | some a, some b => decide (a < b)

/-- Non-strict order on nullable instants, nulls first. -/
def optLeB (x y : Option Int) : Bool := optLtB x y || (x == y)

/-- Byte-wise comparison of character lists (SQL-style text ordering for
handler paths). -/
def listCharLe : List Char → List Char → Bool
  | [], _ => true
  | _ :: _, [] => false
  | a :: as, b :: bs =>
    if a.toNat < b.toNat then true
    else if b.toNat < a.toNat then false
    else listCharLe as bs

/-- Text ordering on handler paths. -/
def strLeB (a b : String) : Bool := listCharLe a.data b.data

/-- Three-level lexicographic comparison: two nullable-instant keys
(ascending, nulls first) and a final tie-break comparison. -/
def lex3B {α : Type} (f g : α → Option Int) (h : α → α → Bool) (a b : α) : Bool :=
  optLtB (f a) (f b) ||
  ((f a == f b) &&
    (optLtB (g a) (g b) || ((g a == g b) && h a b)))

/-- The handler-class fairness ordering: `time_last_handled` ascending nulls
first, then `next_occurrence` ascending, then `occurrence_handler_path`
ascending. -/
def fairLeB (a b : RRule) : Bool :=
  lex3B (fun r => r.time_last_handled) (fun r => r.next_occurrence)
    (fun x y => strLeB x.occurrence_handler_path y.occurrence_handler_path) a b

/-- `fairLeB` as a relation for sorting. -/
def fairR (a b : RRule) : Prop := fairLeB a b = true

instance : DecidableRel fairR := fun a b =>
  inferInstanceAs (Decidable (fairLeB a b = true))

/-- The related-model ordering: `time_last_handled` ascending nulls first,
then `next_occurrence` ascending, then `id` ascending. -/
def relatedLeB (a b : RRule) : Bool :=
  lex3B (fun r => r.time_last_handled) (fun r => r.next_occurrence)
    (fun x y => optLeB x.id y.id) a b

/-- `relatedLeB` as a relation for sorting. -/
def relatedR (a b : RRule) : Prop := relatedLeB a b = true

instance : DecidableRel relatedR := fun a b =>
  inferInstanceAs (Decidable (relatedLeB a b = true))

/-- The `next_occurrence__lte=utcnow()` queryset filter (SQL: a NULL
`next_occurrence` never matches). -/
def RRule.isOverdue (r : RRule) (now : Int) : Bool :=
  match r.next_occurrence with
  | some v => decide (v ≤ now)
  | none => false

/-- Python `qs[:limit]` guarded by `if limit:` (both `None` and `0` are
falsy, leaving the queryset uncapped). -/
def applyLimit {α : Type} (limit : Option Nat) (l : List α) : List α :=
  match limit with
  | none => l
  | some n => if n = 0 then l else l.take n

/-- The overdue rules a `handle_overdue` pass starts from (the queryset
filter of `overdue_handler_class_instances` before the window function). -/
def overdueRows (store : List RRule) (now : Int) (extra : RRule → Bool) : List RRule :=
  store.filter (fun r => r.isOverdue now && extra r)

/-- The distinct handler paths present in a list of rules (the window
partition keys). -/
def pathsOf (rows : List RRule) : List String :=
  (rows.map (fun r => r.occurrence_handler_path)).dedup

/-- The `RowNumber` window (partition by `occurrence_handler_path`, order by
`next_occurrence` ascending) filtered to `row_num=1`: the rule with the
earliest `next_occurrence` for a given path (first listed wins ties). -/
def bestForPath (p : String) : List RRule → Option RRule
  | [] => none
  | r :: rs =>
    match bestForPath p rs with
    | none => if r.occurrence_handler_path = p then some r else none
    | some b =>
      if r.occurrence_handler_path = p then
        some (if optLeB r.next_occurrence b.next_occurrence then r else b)
      else some b

/-- `RRuleManager.overdue_handler_class_instances(limit, **kwargs)`: one
representative overdue rule per handler path (earliest `next_occurrence`),
ordered by the fairness key, capped by `limit`, with unresolvable handler
paths dropped (`import_string` failures return `None` and are filtered).
Each returned rule stands for the handler-class instance built from its
path. -/
def RRuleManager.overdue_handler_class_instances (store : List RRule) (now : Int)
    (extra : RRule → Bool) (limit : Option Nat) (resolves : String → Bool) : List RRule :=
  let rows := overdueRows store now extra
  let reps := (pathsOf rows).filterMap (fun p => bestForPath p rows)
  let sorted := List.insertionSort fairR reps
  (applyLimit limit sorted).filter (fun r => resolves r.occurrence_handler_path)

/-- One row of `bulk_update(['last_occurrence', 'next_occurrence'])`: a
store row picks up the occurrence fields of the advanced object with its
primary key, if any. -/
def bulkUpdateRow (advanced : List RRule) (x : RRule) : RRule :=
  match advanced.find? (fun a => a.id == x.id) with
  | some a =>
    { x with last_occurrence := a.last_occurrence,
             next_occurrence := a.next_occurrence }
  | none => x

/-- One row of `.update(time_last_handled=utcnow())` over an `id__in`
filter. -/
def stampTLH (ids : List (Option Int)) (now : Int) (x : RRule) : RRule :=
  if ids.contains x.id then { x with time_last_handled := some now } else x

/-- `RRuleManager.update_next_occurrences(rrule_objects)`: advance each
given rule without saving, then bulk-update `last_occurrence` and
`next_occurrence` of the matching store rows by primary key.  Returns the
updated store and the advanced objects. -/
def RRuleManager.update_next_occurrences (store : List RRule) (objs : List RRule)
    (now : Int) : List RRule × List RRule :=
  let advanced := objs.map (fun o => (o.update_next_occurrence now false).state)
  (store.map (bulkUpdateRow advanced), advanced)

/-- The external collaborators of related-model dispatch: whether a related
object has a method of the given name (`hasattr`), and the result of
calling it with the rule (`getattr(...)(rrule_object)`, `none` modelling a
falsy return value). -/
structure RelatedEnv where
  hasMethod : Int → String → Bool
  callMethod : Int → String → RRule → Option RRule

/-- `RRuleManager.process_related_model_handlers(limit, filters)`: fetch the
overdue related-object rules (ordered by `time_last_handled` nulls first,
`next_occurrence`, `id`, capped by `limit`), invoke the named method where
it exists, bulk-advance the truthy results, and stamp `time_last_handled`
on every fetched rule.  Returns the updated store and the advanced
objects. -/
def RRuleManager.process_related_model_handlers (env : RelatedEnv) (store : List RRule)
    (now : Int) (limit : Option Nat) (filters : RRule → Bool) : List RRule × List RRule :=
  let fetched := applyLimit limit (List.insertionSort relatedR (store.filter (fun r =>
    r.isOverdue now && r.related_object_handler_name.isSome &&
    r.related_object_id.isSome && filters r)))
  let ids := fetched.map (fun r => r.id)
  let toAdvance := fetched.filterMap (fun r =>
    match r.related_object_id, r.related_object_handler_name with
    | some oid, some mname =>
      if env.hasMethod oid mname then env.callMethod oid mname r else none
    | _, _ => none)
  let res := RRuleManager.update_next_occurrences store toAdvance now
  (res.1.map (stampTLH ids now), res.2)

/-- The external collaborators of handler-class dispatch: whether a handler
path resolves (`import_string`), and the rules a handler's `handle()`
returns. -/
structure OccurrenceEnv where
  resolves : String → Bool
  handle : String → List RRule

/-- `RRuleManager.process_occurrence_handler_paths(limit, **kwargs)`: invoke
`handle()` on each selected handler-class instance, bulk-advance every rule
the handlers returned, and stamp `time_last_handled` on every rule whose
handler path was selected this pass. -/
def RRuleManager.process_occurrence_handler_paths (env : OccurrenceEnv) (store : List RRule)
    (now : Int) (limit : Option Nat) (extra : RRule → Bool) : List RRule :=
  let instances := RRuleManager.overdue_handler_class_instances store now extra limit env.resolves
  let rrules := (instances.map (fun i => env.handle i.occurrence_handler_path)).flatten
  let res := RRuleManager.update_next_occurrences store rrules now
  let handlerPaths := instances.map (fun i => i.occurrence_handler_path)
  res.1.map (fun r =>
    if handlerPaths.contains r.occurrence_handler_path then
      { r with time_last_handled := some now }
    else r)

/-- The occurrence returned by `seriesAfter` is strictly after the
reference instant. -/
theorem RRuleParams.seriesAfter_gt (p : RRuleParams) (hstep : 0 < p.step)
    (t x : Int) (h : p.seriesAfter t = some x) : t < x := by
  unfold RRuleParams.seriesAfter at h
  split_ifs at h
  cases h
  unfold RRuleParams.occ RRuleParams.afterIndex
  have hq := Int.ediv_add_emod (t - p.dtstart) p.step
  have hr := Int.emod_lt_of_pos (t - p.dtstart) hstep
  have hmax : (t - p.dtstart) / p.step + 1 ≤ max 0 ((t - p.dtstart) / p.step + 1) :=
    le_max_right _ _
  have hmul : p.step * ((t - p.dtstart) / p.step + 1) ≤
      p.step * max 0 ((t - p.dtstart) / p.step + 1) :=
    mul_le_mul_of_nonneg_left hmax (le_of_lt hstep)
  have hexp : p.step * ((t - p.dtstart) / p.step + 1) =
      p.step * ((t - p.dtstart) / p.step) + p.step := by ring
  have hcomm : max 0 ((t - p.dtstart) / p.step + 1) * p.step =
      p.step * max 0 ((t - p.dtstart) / p.step + 1) := by ring
  linarith

/-- The occurrence returned by the fuel-bounded exclusion search is strictly
after the reference instant. -/
theorem rruleSetAfterGo_gt (p e : RRuleParams) (hstep : 0 < p.step) :
    ∀ (fuel : Nat) (t x : Int), rruleSetAfterGo p e fuel t = some x → t < x := by
  intro fuel
  induction fuel with
  | zero => intro t x h; simp [rruleSetAfterGo] at h
  | succ n ih =>
    intro t x h
    unfold rruleSetAfterGo at h
    split at h
    · cases h
    · rename_i y hs
      have hty : t < y := p.seriesAfter_gt hstep t y hs
      split at h
      · exact lt_trans hty (ih y x h)
      · cases h
        exact hty

/-- The occurrence returned by `rruleset.after` is strictly after the
reference instant. -/
theorem rruleSetAfter_gt (p : RRuleParams) (e : Option RRuleParams) (hstep : 0 < p.step)
    (t x : Int) (h : rruleSetAfter p e t = some x) : t < x := by
  unfold rruleSetAfter at h
  cases e with
  | none => exact p.seriesAfter_gt hstep t x h
  | some ex => exact rruleSetAfterGo_gt p ex hstep _ t x h

/-- In a well-formed zone, local datetimes below the spring-forward gap's
end resolve to the standard offset (this includes the gap itself, which
pytz resolves via the instant six hours earlier). -/
theorem TZ.chooseOffset_low (z : TZ) (hwf : z.WF) (l : Int)
    (h : l < z.dstStartUtc + z.dstOffset) : z.chooseOffset l = z.stdOffset := by
  obtain ⟨h1, h2, h3⟩ := hwf
  unfold TZ.chooseOffset TZ.offsetAtUtc
  split_ifs <;> omega

/-- In a well-formed zone, local datetimes between the gap and the
ambiguous fall-back hour resolve to the DST offset. -/
theorem TZ.chooseOffset_mid (z : TZ) (hwf : z.WF) (l : Int)
    (hlo : z.dstStartUtc + z.dstOffset ≤ l) (hhi : l < z.dstEndUtc + z.stdOffset) :
    z.chooseOffset l = z.dstOffset := by
  obtain ⟨h1, h2, h3⟩ := hwf
  unfold TZ.chooseOffset TZ.offsetAtUtc
  split_ifs <;> omega

/-- In a well-formed zone, local datetimes at or above the ambiguous
fall-back hour resolve to the standard offset (`is_dst=False`). -/
theorem TZ.chooseOffset_high (z : TZ) (hwf : z.WF) (l : Int)
    (h : z.dstEndUtc + z.stdOffset ≤ l) : z.chooseOffset l = z.stdOffset := by
  obtain ⟨h1, h2, h3⟩ := hwf
  unfold TZ.chooseOffset TZ.offsetAtUtc
  split_ifs <;> omega

/-- Key monotonicity fact: a local wall clock strictly after the local view
of a UTC instant `u` localizes (with `is_dst=False` resolution) to a UTC
instant strictly after `u`. -/
theorem TZ.lt_of_toLocal_lt (z : TZ) (hwf : z.WF) (u y : Int)
    (h : z.toLocal u < y) : u < y - z.chooseOffset y := by
  obtain ⟨h1, h2, h3⟩ := hwf
  unfold TZ.toLocal TZ.offsetAtUtc at h
  rcases lt_or_le y (z.dstStartUtc + z.dstOffset) with hy | hy
  · rw [z.chooseOffset_low ⟨h1, h2, h3⟩ y hy]
    split_ifs at h <;> omega
  · rcases lt_or_le y (z.dstEndUtc + z.stdOffset) with hy2 | hy2
    · rw [z.chooseOffset_mid ⟨h1, h2, h3⟩ y hy hy2]
      split_ifs at h <;> omega
    · rw [z.chooseOffset_high ⟨h1, h2, h3⟩ y hy2]
      split_ifs at h <;> omega

/-- Localizing a local wall clock and viewing the result as a local wall
clock again never moves backwards (a gap time moves forward by the DST
shift, every other time is a fixed point). -/
theorem TZ.le_toLocal_localizeToUtc (z : TZ) (hwf : z.WF) (l : Int) :
    l ≤ z.toLocal (z.localizeToUtc l) := by
  obtain ⟨h1, h2, h3⟩ := hwf
  unfold TZ.toLocal TZ.localizeToUtc TZ.chooseOffset TZ.offsetAtUtc
  split_ifs <;> omega

/-- When a local datetime is existent or ambiguous, `chooseOffset` agrees
with `chooseOffsetCore`. -/
theorem TZ.chooseOffset_of_core (z : TZ) (l o : Int)
    (h : z.chooseOffsetCore l = some o) : z.chooseOffset l = o := by
  unfold TZ.chooseOffsetCore at h
  unfold TZ.chooseOffset
  split_ifs at h ⊢ <;> simp_all

/-- The offset picked by `chooseOffsetCore` is valid for the local
datetime: subtracting it lands on a UTC instant whose zone offset is that
same offset. -/
theorem TZ.core_valid (z : TZ) (l o : Int)
    (h : z.chooseOffsetCore l = some o) : z.offsetAtUtc (l - o) = o := by
  unfold TZ.chooseOffsetCore at h
  split_ifs at h <;> simp_all

/-- `optLtB` is transitive. -/
theorem optLtB_trans (x y z : Option Int) (h1 : optLtB x y = true)
    (h2 : optLtB y z = true) : optLtB x z = true := by
  cases x <;> cases y <;> cases z <;> simp [optLtB] at * <;> omega

/-- `optLtB` trichotomy. -/
theorem optLtB_total3 (x y : Option Int) :
    optLtB x y = true ∨ x = y ∨ optLtB y x = true := by
  cases x <;> cases y <;> simp [optLtB] <;> omega

/-- `optLeB` is reflexive. -/
theorem optLeB_refl (x : Option Int) : optLeB x x = true := by
  cases x <;> simp [optLeB, optLtB]

/-- `optLeB` is total. -/
theorem optLeB_total (x y : Option Int) : optLeB x y = true ∨ optLeB y x = true := by
  cases x <;> cases y <;> simp [optLeB, optLtB] <;> omega

/-- `optLeB` is transitive. -/
theorem optLeB_trans (x y z : Option Int) (h1 : optLeB x y = true)
    (h2 : optLeB y z = true) : optLeB x z = true := by
  cases x <;> cases y <;> cases z <;> simp [optLeB, optLtB] at * <;> omega

/-- `listCharLe` is total. -/
theorem listCharLe_total : ∀ as bs : List Char,
    listCharLe as bs = true ∨ listCharLe bs as = true := by
  intro as
  induction as with
  | nil => intro bs; left; rfl
  | cons a at' ih =>
    intro bs
    cases bs with
    | nil => right; rfl
    | cons b bt =>
      by_cases h1 : a.toNat < b.toNat
      · left; simp [listCharLe, h1]
      · by_cases h2 : b.toNat < a.toNat
        · right; simp [listCharLe, h2]
        · rcases ih bt with h | h
          · left; simp [listCharLe, h1, h2, h]
          · right; simp [listCharLe, h1, h2, h]

/-- `listCharLe` is transitive. -/
theorem listCharLe_trans : ∀ as bs cs : List Char, listCharLe as bs = true →
    listCharLe bs cs = true → listCharLe as cs = true := by
  intro as
  induction as with
  | nil => intro bs cs _ _; rfl
  | cons a at' ih =>
    intro bs cs h1 h2
    cases bs with
    | nil => simp [listCharLe] at h1
    | cons b bt =>
      cases cs with
      | nil => simp [listCharLe] at h2
      | cons c ct =>
        simp only [listCharLe] at h1 h2 ⊢
        split_ifs at h1 h2 ⊢ <;>
          first
          | rfl
          | omega
          | exact ih bt ct h1 h2

/-- `strLeB` is total. -/
theorem strLeB_total (a b : String) : strLeB a b = true ∨ strLeB b a = true :=
  listCharLe_total a.data b.data

/-- `strLeB` is transitive. -/
theorem strLeB_trans (a b c : String) (h1 : strLeB a b = true)
    (h2 : strLeB b c = true) : strLeB a c = true :=
  listCharLe_trans a.data b.data c.data h1 h2

/-- `lex3B` is total when the tie-break is total. -/
theorem lex3B_total {α : Type} (f g : α → Option Int) (h : α → α → Bool)
    (htot : ∀ a b, h a b = true ∨ h b a = true) (a b : α) :
    lex3B f g h a b = true ∨ lex3B f g h b a = true := by
  unfold lex3B
  rcases optLtB_total3 (f a) (f b) with hf | hf | hf
  · left; simp [hf]
  · rcases optLtB_total3 (g a) (g b) with hg | hg | hg
    · left; simp [hf, hg]
    · rcases htot a b with hh | hh
      · left; simp [hf, hg, hh]
      · right; simp [hf, hg, hh]
    · right; simp [hf, hg]
  · right; simp [hf]

/-- `lex3B` is transitive when the tie-break is transitive. -/
theorem lex3B_trans {α : Type} (f g : α → Option Int) (h : α → α → Bool)
    (htr : ∀ a b c, h a b = true → h b c = true → h a c = true) (a b c : α)
    (h1 : lex3B f g h a b = true) (h2 : lex3B f g h b c = true) :
    lex3B f g h a c = true := by
  unfold lex3B at h1 h2 ⊢
  simp only [Bool.or_eq_true, Bool.and_eq_true, beq_iff_eq] at h1 h2 ⊢
  rcases h1 with h1 | ⟨hfe, h1'⟩
  · rcases h2 with h2 | ⟨hfe2, _⟩
    · exact Or.inl (optLtB_trans _ _ _ h1 h2)
    · exact Or.inl (by rwa [hfe2] at h1)
  · rcases h2 with h2 | ⟨hfe2, h2'⟩
    · exact Or.inl (by rwa [hfe])
    · refine Or.inr ⟨hfe.trans hfe2, ?_⟩
      rcases h1' with hg1 | ⟨hge, hh1⟩
      · rcases h2' with hg2 | ⟨hge2, _⟩
        · exact Or.inl (optLtB_trans _ _ _ hg1 hg2)
        · exact Or.inl (by rwa [hge2] at hg1)
      · rcases h2' with hg2 | ⟨hge2, hh2⟩
        · exact Or.inl (by rwa [hge])
        · exact Or.inr ⟨hge.trans hge2, htr a b c hh1 hh2⟩

/-- The fairness ordering is total. -/
theorem fairLeB_total (a b : RRule) : fairLeB a b = true ∨ fairLeB b a = true := by
  unfold fairLeB
  exact lex3B_total _ _ _
    (fun x y => strLeB_total x.occurrence_handler_path y.occurrence_handler_path) a b

/-- The fairness ordering is transitive. -/
theorem fairLeB_trans (a b c : RRule) (h1 : fairLeB a b = true)
    (h2 : fairLeB b c = true) : fairLeB a c = true := by
  unfold fairLeB at h1 h2 ⊢
  exact lex3B_trans _ _ _
    (fun x y z hxy hyz =>
      strLeB_trans x.occurrence_handler_path y.occurrence_handler_path
        z.occurrence_handler_path hxy hyz) a b c h1 h2

instance : IsTotal RRule fairR := ⟨fairLeB_total⟩

instance : IsTrans RRule fairR := ⟨fairLeB_trans⟩

/-- A rule selected by the window filter belongs to the partition it was
selected from. -/
theorem bestForPath_mem (p : String) : ∀ (l : List RRule) (r : RRule),
    bestForPath p l = some r → r ∈ l ∧ r.occurrence_handler_path = p := by
  intro l
  induction l with
  | nil => intro r h; cases h
  | cons x xs ih =>
    intro r h
    unfold bestForPath at h
    split at h
    · split_ifs at h with hx
      · cases h; exact ⟨List.mem_cons_self _ _, hx⟩
    · rename_i b hrest
      split_ifs at h with hx hle
      · injection h with h2
        subst h2
        exact ⟨List.mem_cons_self _ _, hx⟩
      · injection h with h2
        subst h2
        rcases ih b hrest with ⟨hmem, hpath⟩
        exact ⟨List.mem_cons_of_mem _ hmem, hpath⟩
      · injection h with h2
        subst h2
        rcases ih b hrest with ⟨hmem, hpath⟩
        exact ⟨List.mem_cons_of_mem _ hmem, hpath⟩

/-- When the window filter selects nothing for a path, no rule of the list
carries that path. -/
theorem bestForPath_none (p : String) : ∀ (l : List RRule),
    bestForPath p l = none → ∀ r' ∈ l, r'.occurrence_handler_path ≠ p := by
  intro l
  induction l with
  | nil => intro _ r' hmem; cases hmem
  | cons x xs ih =>
    intro h r' hmem
    unfold bestForPath at h
    split at h
    · rename_i hrest
      split_ifs at h with hx
      rcases List.mem_cons.mp hmem with rfl | hmem'
      · exact hx
      · exact ih hrest r' hmem'
    · split_ifs at h

/-- The rule selected by the window filter has the earliest
`next_occurrence` in its partition. -/
theorem bestForPath_min (p : String) : ∀ (l : List RRule) (r : RRule),
    bestForPath p l = some r → ∀ r' ∈ l, r'.occurrence_handler_path = p →
    optLeB r.next_occurrence r'.next_occurrence = true := by
  intro l
  induction l with
  | nil => intro r h; cases h
  | cons x xs ih =>
    intro r h r' hmem hpath
    unfold bestForPath at h
    split at h
    · rename_i hrest
      split_ifs at h with hx
      cases h
      rcases List.mem_cons.mp hmem with rfl | hmem'
      · exact optLeB_refl _
      · exact absurd hpath (bestForPath_none p xs hrest r' hmem')
    · rename_i b hrest
      split_ifs at h with hx hle
      · injection h with h2
        subst h2
        rcases List.mem_cons.mp hmem with rfl | hmem'
        · exact optLeB_refl _
        · exact optLeB_trans _ _ _ hle (ih b hrest r' hmem' hpath)
      · injection h with h2
        subst h2
        rcases List.mem_cons.mp hmem with rfl | hmem'
        · rcases optLeB_total r'.next_occurrence b.next_occurrence with hh | hh
          · exact absurd hh hle
          · exact hh
        · exact ih b hrest r' hmem' hpath
      · injection h with h2
        subst h2
        rcases List.mem_cons.mp hmem with rfl | hmem'
        · exact absurd hpath hx
        · exact ih b hrest r' hmem' hpath

/-- The handler paths of the selected representatives are distinct. -/
theorem nodup_paths_filterMap (rows : List RRule) : ∀ (ps : List String), ps.Nodup →
    ((ps.filterMap (fun p => bestForPath p rows)).map
      (fun r => r.occurrence_handler_path)).Nodup := by
  intro ps
  induction ps with
  | nil => intro _; simp
  | cons p pt ih =>
    intro hnd
    cases hb : bestForPath p rows with
    | none =>
      simp only [List.filterMap_cons, hb]
      exact ih (List.Nodup.of_cons hnd)
    | some b =>
      simp only [List.filterMap_cons, hb, List.map_cons]
      refine List.Nodup.cons ?_ (ih (List.Nodup.of_cons hnd))
      intro hmem
      rcases List.mem_map.mp hmem with ⟨r', hr'mem, hr'path⟩
      rcases List.mem_filterMap.mp hr'mem with ⟨q, hqmem, hq⟩
      have h1 := (bestForPath_mem q rows r' hq).2
      have h2 := (bestForPath_mem p rows b hb).2
      have : q = p := by rw [← h1, hr'path, h2]
      exact (List.nodup_cons.mp hnd).1 (this ▸ hqmem)

/-- `applyLimit` yields a sublist. -/
theorem applyLimit_sublist {α : Type} (limit : Option Nat) (l : List α) :
    (applyLimit limit l).Sublist l := by
  cases limit with
  | none => exact List.Sublist.refl l
  | some n =>
    simp only [applyLimit]
    split_ifs
    · exact List.Sublist.refl l
    · exact List.take_sublist n l

/-- The non-forced occurrence computation is the composition stated in the
source: convert the reference instant to the rule's local time, reverse the
day offset, take the rule set's next element, convert it to UTC and apply
the day offset. -/
theorem RRule.get_next_occurrence_eq (r : RRule) (now u : Int) :
    (r.get_next_occurrence now (some u) true false).1 =
    (rruleSetAfter r.rrule_params r.rrule_exclusion_params
        (r.offset (r.time_zone.toLocal u) true)).map
      (fun n => r.offset (r.convert_to_utc n) false) := by
  unfold RRule.get_next_occurrence
  simp [Option.orElse]

/-- A null `day_offset` makes `offset` the identity. -/
theorem RRule.offset_none (r : RRule) (h : r.day_offset = none) (dt : Int) (b : Bool) :
    r.offset dt b = dt := by
  unfold RRule.offset
  rw [h]

/-- A zero `day_offset` makes `offset` the identity (Python truthiness). -/
theorem RRule.offset_zero (r : RRule) (h : r.day_offset = some 0) (dt : Int) (b : Bool) :
    r.offset dt b = dt := by
  unfold RRule.offset
  rw [h]
  simp

/-- Reversed `offset` with a non-zero `day_offset` is plain subtraction. -/
theorem RRule.offset_some_rev (r : RRule) (k : Int) (h : r.day_offset = some k)
    (hk : k ≠ 0) (dt : Int) : r.offset dt true = dt - k * 1440 := by
  unfold RRule.offset
  rw [h]
  simp [hk]

/-- Forward `offset` with a non-zero `day_offset` adds the days on the
zone's wall clock and re-attaches the offset pytz-normalization derives
from the pre-addition offset (the offset in effect at `dt + k` days). -/
theorem RRule.offset_some_fwd (r : RRule) (k : Int) (h : r.day_offset = some k)
    (hk : k ≠ 0) (dt : Int) :
    r.offset dt false =
    r.time_zone.toLocal dt + k * 1440 -
      r.time_zone.offsetAtUtc (dt + k * 1440) := by
  unfold RRule.offset TZ.toLocal
  rw [h]
  simp only [hk, if_neg, if_false, Bool.false_eq_true]
  have harg : dt + r.time_zone.offsetAtUtc dt + k * 1440 - r.time_zone.offsetAtUtc dt =
      dt + k * 1440 := by ring
  rw [harg]

/-- For a rule without a day offset, the occurrence computed relative to an
explicit reference instant is strictly after that instant (well-formed
zone, positive step).  A non-null day offset gives no such guarantee: the
fleming day addition can land on a spring-forward gap wall clock and come
out before the reference (see the C9 counterexample). -/
theorem RRule.get_next_occurrence_lt (r : RRule) (now u v : Int)
    (hwf : r.time_zone.WF) (hstep : 0 < r.rrule_params.step)
    (hk : r.day_offset = none)
    (h : (r.get_next_occurrence now (some u) true false).1 = some v) : u < v := by
  rw [RRule.get_next_occurrence_eq] at h
  rw [Option.map_eq_some'] at h
  obtain ⟨n, hn, hv⟩ := h
  have hlt := rruleSetAfter_gt _ _ hstep _ _ hn
  subst hv
  rw [r.offset_none hk] at hlt
  rw [r.offset_none hk]
  unfold RRule.convert_to_utc TZ.localizeToUtc
  exact r.time_zone.lt_of_toLocal_lt hwf u n hlt

/-- A persisted unbounded DAILY rule at midnight UTC, the base fixture for
concrete checks. -/
def ruleDailyUTC : RRule :=
  { id := some 1,
    rrule_params :=
      { freq := Freq.DAILY, interval := 1, dtstart := 0, count := none, until_ := none },
    rrule_exclusion_params := none,
    time_zone := tzUTC,
    last_occurrence := none,
    next_occurrence := some 0,
    occurrence_handler_path := "app.handlers.Daily",
    related_object_id := none,
    related_object_handler_name := none,
    day_offset := none,
    time_last_handled := none }

/-- C1: `update_next_occurrence` is a three-way dispatch: a null
`next_occurrence` is a no-op returning Python `None`; a current time
strictly before `next_occurrence` is a no-op returning `False`; otherwise
`last_occurrence` becomes the old `next_occurrence`, `next_occurrence`
becomes the generator's next occurrence after that instant (timezone
converted, day offset applied, or null when exhausted), and exactly those
two fields are saved when `save` is true. -/
theorem update_next_occurrence_dispatch (r : RRule) (now : Int) (save : Bool) :
    (r.next_occurrence = none →
      r.update_next_occurrence now save = ⟨r, none, none⟩) ∧
    (∀ nxt, r.next_occurrence = some nxt → now < nxt →
      r.update_next_occurrence now save = ⟨r, some false, none⟩) ∧
    (∀ nxt, r.next_occurrence = some nxt → ¬ now < nxt →
      (r.update_next_occurrence now save).state.last_occurrence = some nxt ∧
      (r.update_next_occurrence now save).state.next_occurrence =
        (rruleSetAfter r.rrule_params r.rrule_exclusion_params
            (r.offset (r.time_zone.toLocal nxt) true)).map
          (fun n => r.offset (r.convert_to_utc n) false) ∧
      (r.update_next_occurrence now save).ret = none ∧
      (r.update_next_occurrence now save).savedFields =
        (if save then some ["last_occurrence", "next_occurrence"] else none)) := by
  refine ⟨?_, ?_, ?_⟩
  · intro h
    unfold RRule.update_next_occurrence
    rw [h]
  · intro nxt h hlt
    unfold RRule.update_next_occurrence
    rw [h]
    simp [hlt]
  · intro nxt h hnlt
    unfold RRule.update_next_occurrence
    rw [h]
    simp only [if_neg hnlt]
    refine ⟨trivial, ?_, trivial, trivial⟩
    exact RRule.get_next_occurrence_eq _ now nxt

/-- Witness for C1: a due rule advances, with `last_occurrence` set to the
old `next_occurrence` and both fields marked for saving. -/
theorem update_next_occurrence_dispatch_witness :
    ({ ruleDailyUTC with next_occurrence := some 100 }.update_next_occurrence
      250 true).state.last_occurrence = some 100 ∧
    ({ ruleDailyUTC with next_occurrence := some 100 }.update_next_occurrence
      250 true).savedFields = some ["last_occurrence", "next_occurrence"] := by
  have h := (update_next_occurrence_dispatch
    { ruleDailyUTC with next_occurrence := some 100 } 250 true).2.2 100 rfl (by decide)
  exact ⟨h.1, h.2.2.2.trans (by decide)⟩

/-- C6: when the bounded series is exhausted relative to the reference
instant (the non-forced call yields nothing), the forced call returns what
the same spec with `count`/`until` removed yields, and the stored
`rrule_params` are unchanged by the call. -/
theorem get_next_occurrence_force_unbounded (r : RRule) (now : Int)
    (lastOcc : Option Int) (c : Bool)
    (h : (r.get_next_occurrence now lastOcc c false).1 = none) :
    (r.get_next_occurrence now lastOcc c true).1 =
      ({ r with rrule_params := stripBounds r.rrule_params }.get_next_occurrence
          now lastOcc c false).1 ∧
    (r.get_next_occurrence now lastOcc c true).2 = r.rrule_params := by
  unfold RRule.get_next_occurrence at h ⊢
  simp only [Bool.false_eq_true, and_false, if_false, and_true,
    Option.map_eq_none'] at h ⊢
  rw [if_pos h]
  rfl

/-- Witness for C6: a count-bounded rule that already produced its only
occurrence yields the unbounded series' next occurrence under `force`. -/
theorem get_next_occurrence_force_unbounded_witness :
    (({ ruleDailyUTC with
        rrule_params :=
          { freq := Freq.DAILY, interval := 1, dtstart := 0,
            count := some 1, until_ := none } }).get_next_occurrence
      10 (some 10) true false).1 = none ∧
    (({ ruleDailyUTC with
        rrule_params :=
          { freq := Freq.DAILY, interval := 1, dtstart := 0,
            count := some 1, until_ := none } }).get_next_occurrence
      10 (some 10) true true).1 = some 1440 ∧
    (({ ruleDailyUTC with
        rrule_params :=
          { freq := Freq.DAILY, interval := 1, dtstart := 0,
            count := some 1, until_ := none } }).get_next_occurrence
      10 (some 10) true true).2 =
      { freq := Freq.DAILY, interval := 1, dtstart := 0,
        count := some 1, until_ := none } := by
  have h := get_next_occurrence_force_unbounded
    { ruleDailyUTC with
      rrule_params :=
        { freq := Freq.DAILY, interval := 1, dtstart := 0,
          count := some 1, until_ := none } } 10 (some 10) true (by decide)
  refine ⟨by decide, ?_, ?_⟩
  · rw [h.1]
    decide
  · rw [h.2]

/-- Counterexample for C7: in the Kiev zone model the local wall clock
2022-03-27 03:30 does not exist (spring-forward gap); it localizes with the
standard offset and converts back to 04:30, not 03:30. -/
theorem utc_roundtrip_counterexample :
    tzKiev2022.toLocal (tzKiev2022.localizeToUtc (dtMin 2022 3 27 3 30)) =
      dtMin 2022 3 27 4 30 ∧
    tzKiev2022.toLocal (tzKiev2022.localizeToUtc (dtMin 2022 3 27 3 30)) ≠
      dtMin 2022 3 27 3 30 := by
  decide

/-- C7 amended: the UTC round trip restores the original wall clock for
every local datetime that exists in the zone (has a valid offset, including
ambiguous fall-back times); only spring-forward gap times change. -/
theorem utc_roundtrip_existent (z : TZ) (l o : Int)
    (h : z.chooseOffsetCore l = some o) :
    z.toLocal (z.localizeToUtc l) = l := by
  have hc := z.chooseOffset_of_core l o h
  have hv := z.core_valid l o h
  unfold TZ.localizeToUtc TZ.toLocal
  rw [hc, hv]
  ring

/-- Witness for C7 amended: a summer datetime in the Kiev model is existent
and round-trips. -/
theorem utc_roundtrip_existent_witness :
    tzKiev2022.chooseOffsetCore (dtMin 2022 6 1 10 0) = some 180 ∧
    tzKiev2022.toLocal (tzKiev2022.localizeToUtc (dtMin 2022 6 1 10 0)) =
      dtMin 2022 6 1 10 0 :=
  ⟨by decide, utc_roundtrip_existent tzKiev2022 (dtMin 2022 6 1 10 0) 180 (by decide)⟩

/-- The C8 scenario rule: DAILY at 10:00 local in the Kiev zone starting
2022-10-29, a new (unsaved) rule as built by `get_dates_from_params`. -/
def kievRule : RRule :=
  { id := none,
    rrule_params :=
      { freq := Freq.DAILY, interval := 1, dtstart := dtMin 2022 10 29 10 0,
        count := none, until_ := none },
    rrule_exclusion_params := none,
    time_zone := tzKiev2022,
    last_occurrence := none,
    next_occurrence := none,
    occurrence_handler_path := "app.handlers.Daily",
    related_object_id := none,
    related_object_handler_name := none,
    day_offset := none,
    time_last_handled := none }

/-- C8: the generated UTC occurrences of the Kiev rule start 07:00Z,
08:00Z, 08:00Z across the 2022-10-30 fall-back transition (local wall
clock stays 10:00). -/
theorem kiev_dst_dates :
    kievRule.get_dates 0 3 none =
      Except.ok [dtMin 2022 10 29 7 0, dtMin 2022 10 30 8 0, dtMin 2022 10 31 8 0] := by
  decide

/-- The C2/C9 fixture: the base daily rule with a one-day offset. -/
def ruleOffsetOne : RRule := { ruleDailyUTC with day_offset := some 1 }

/-- The C2 fixture for the exhausted branch: a single-occurrence series
whose stored `next_occurrence` is still set. -/
def ruleCountOne : RRule :=
  { ruleDailyUTC with
    next_occurrence := some 99,
    rrule_params :=
      { freq := Freq.DAILY, interval := 1, dtstart := 0,
        count := some 1, until_ := none } }

/-- Counterexample for C2: with `day_offset = 1` the freshly computed
occurrence (already offset) is 1440, in the future of now = 10, yet the
stored value becomes 2880 (offset applied a second time), not 1440; and
when the generator is exhausted the stored `next_occurrence` is overwritten
with null instead of being left unchanged. -/
theorem refresh_next_occurrence_counterexample :
    ((ruleOffsetOne.get_next_occurrence 10 (some 10) true false).1 = some 1440 ∧
      (10 : Int) < 1440 ∧
      (ruleOffsetOne.refresh_next_occurrence 10 none).next_occurrence = some 2880 ∧
      some (2880 : Int) ≠ some (1440 : Int)) ∧
    ((ruleCountOne.get_next_occurrence 10 (some 10) true false).1 = none ∧
      ruleCountOne.next_occurrence = some 99 ∧
      (ruleCountOne.refresh_next_occurrence 10 none).next_occurrence = none) := by
  decide

/-- C2 amended: `refresh_next_occurrence` recomputes the occurrence after
the reference time through the generator pipeline (which already applies
the day offset) and stores it with the day offset applied a second time
(exactly the computed occurrence only when `day_offset` is null), and only
when the computed occurrence is strictly in the future of now; when the
computation is not in the future the rule is unchanged; when the series is
exhausted the stored `next_occurrence` is overwritten with null. -/
theorem refresh_next_occurrence_amended (r : RRule) (now : Int) (ct : Option Int) :
    (∀ n, (r.get_next_occurrence now (some (ct.getD now)) true false).1 = some n →
      now < n →
      (r.refresh_next_occurrence now ct).next_occurrence = some (r.offset n false) ∧
      (r.day_offset = none →
        (r.refresh_next_occurrence now ct).next_occurrence = some n)) ∧
    (∀ n, (r.get_next_occurrence now (some (ct.getD now)) true false).1 = some n →
      ¬ now < n → r.refresh_next_occurrence now ct = r) ∧
    ((r.get_next_occurrence now (some (ct.getD now)) true false).1 = none →
      (r.refresh_next_occurrence now ct).next_occurrence = none ∧
      (r.refresh_next_occurrence now ct).last_occurrence = r.last_occurrence) := by
  refine ⟨?_, ?_, ?_⟩
  · intro n hn hlt
    unfold RRule.refresh_next_occurrence
    dsimp only
    rw [hn]
    simp only [if_pos hlt]
    refine ⟨by trivial, fun hk => ?_⟩
    rw [r.offset_none hk]
  · intro n hn hlt
    unfold RRule.refresh_next_occurrence
    dsimp only
    rw [hn]
    simp only [if_neg hlt]
  · intro hn
    unfold RRule.refresh_next_occurrence
    dsimp only
    rw [hn]
    exact ⟨rfl, rfl⟩

/-- Witness for C2 amended: the offset rule stores the doubly offset 2880
for a computed occurrence of 1440. -/
theorem refresh_next_occurrence_amended_witness :
    (ruleOffsetOne.refresh_next_occurrence 10 none).next_occurrence = some 2880 := by
  have h := (refresh_next_occurrence_amended ruleOffsetOne 10 none).1 1440
    (by decide) (by decide)
  exact h.1.trans (by decide)

/-- The C5 fixture: a rule that has already fired (non-null
`last_occurrence`) and progressed far beyond its seed occurrence. -/
def ruleFired : RRule :=
  { ruleDailyUTC with last_occurrence := some 100, next_occurrence := some 555555 }

/-- The copied spec of the fired fixture, as a fresh unseeded rule. -/
def ruleFiredCopy : RRule :=
  { ruleFired with
    id := none,
    last_occurrence := none,
    next_occurrence := none }

/-- The copied spec of the fired fixture after fresh seeding. -/
def ruleFiredSeeded : RRule :=
  { ruleFired with
    id := none,
    last_occurrence := none,
    next_occurrence := some 0 }

/-- Counterexample for C5: cloning a fired rule copies `next_occurrence`
and `last_occurrence` verbatim (555555/100), while seeding a fresh rule
from the same copied spec would produce 0 — the clone is not
seed-equivalent. -/
theorem clone_counterexample :
    ruleFired.clone 2 = Except.ok { ruleFired with id := some 2 } ∧
    ruleFiredCopy.set_date_objects = Except.ok ruleFiredSeeded ∧
    ruleFiredSeeded.next_occurrence = some 0 ∧
    ruleFired.next_occurrence = some 555555 ∧
    some (555555 : Int) ≠ some (0 : Int) := by
  decide

/-- C5 amended: `clone` of a rule that has fired (non-null
`last_occurrence`) preserves the progression state verbatim (only the
identity changes); occurrence fields are recomputed from the spec only
when the source rule has never fired (`last_occurrence` null), in which
case the clone is seeded like a newly created rule. -/
theorem clone_amended (r : RRule) (newId : Int) :
    (∀ l, r.last_occurrence = some l →
      r.clone newId = Except.ok { r with id := some newId }) ∧
    (r.last_occurrence = none →
      r.clone newId =
        (match rruleSetFirst r.rrule_params r.rrule_exclusion_params with
         | none => Except.error ()
         | some d0 =>
           Except.ok
             { r with
               id := some newId,
               next_occurrence := some (r.offset (r.convert_to_utc d0) false) })) := by
  constructor
  · intro l hl
    unfold RRule.clone RRule.save RRule.set_date_objects
    simp [hl]
  · intro hl
    unfold RRule.clone RRule.save RRule.set_date_objects
    simp only [hl, and_self, if_pos, and_true]
    cases hfirst : rruleSetFirst r.rrule_params r.rrule_exclusion_params with
    | none => simp
    | some d0 =>
      simp
      rfl

/-- Witness for C5 amended: the fired fixture clones to an identical rule
with a fresh identity. -/
theorem clone_amended_witness :
    ruleFired.clone 2 = Except.ok { ruleFired with id := some 2 } :=
  (clone_amended ruleFired 2).1 100 rfl

/-- The C10 fixture: a new (unsaved) rule whose series is empty
(`until` before `dtstart`). -/
def ruleEmptyNew : RRule :=
  { ruleDailyUTC with
    id := none,
    next_occurrence := none,
    rrule_params :=
      { freq := Freq.DAILY, interval := 1, dtstart := 1000,
        count := none, until_ := some 0 } }

/-- Counterexample for C10: `get_dates` on a new rule with an empty series
raises (the pre-save seeding runs `rruleset[0]` outside the `try` block),
even though `num_dates > 0`. -/
theorem get_dates_counterexample :
    ruleEmptyNew.get_dates 0 20 none = Except.error () ∧ (0 : Int) < 20 := by
  decide

/-- C10 amended: for `num_dates > 0`, `get_dates` returns normally with the
accumulated dates whenever the rule is persisted or fired (the pre-save
seeding does nothing) or its series is non-empty; failures inside the
guarded generation are swallowed, so a non-new rule with an empty series
returns the empty accumulation.  Only a new, never-fired rule with an empty
series raises, from the seeding that runs before the `try` block. -/
theorem get_dates_amended (r : RRule) (now n : Int) (sd : Option Int) (h : 0 < n) :
    ((r.id = none ∧ r.last_occurrence = none →
        rruleSetFirst r.rrule_params r.rrule_exclusion_params ≠ none) →
      ∃ l, r.get_dates now n sd = Except.ok l) ∧
    (¬(r.id = none ∧ r.last_occurrence = none) →
      rruleSetFirst r.rrule_params r.rrule_exclusion_params = none →
      r.get_dates now n sd = Except.ok []) := by
  constructor
  · intro hseed
    unfold RRule.get_dates
    rw [if_neg (by omega)]
    unfold RRule.set_date_objects
    by_cases hnew : r.id = none ∧ r.last_occurrence = none
    · rw [if_pos hnew]
      cases hfirst : rruleSetFirst r.rrule_params r.rrule_exclusion_params with
      | none => exact absurd hfirst (hseed hnew)
      | some d0 => exact ⟨_, rfl⟩
    · rw [if_neg hnew]
      exact ⟨_, rfl⟩
  · intro hnew hfirst
    unfold RRule.get_dates
    rw [if_neg (by omega)]
    unfold RRule.set_date_objects
    rw [if_neg hnew]
    simp [hfirst]

/-- Witness for C10 amended: the persisted daily fixture generates dates
without raising. -/
theorem get_dates_amended_witness :
    ∃ l, ruleDailyUTC.get_dates 0 2 none = Except.ok l :=
  (get_dates_amended ruleDailyUTC 0 2 none (by decide)).1
    (fun hn => absurd hn.1 (by decide))

/-- The C9 refresh fixture: a fired rule with a negative day offset whose
state satisfies the invariant before refreshing. -/
def ruleNegOffset : RRule :=
  { ruleDailyUTC with
    day_offset := some (-1),
    last_occurrence := some 5,
    next_occurrence := some 2880 }

/-- The C9 update fixture's zone: standard UTC+0, DST UTC+1, one DST window
with the spring-forward gap on the local wall clocks [100000, 100060). -/
def tzGap : TZ := ⟨0, 60, 100000, 200000⟩

/-- The C9 update fixture: a daily rule with `day_offset = 1` whose next
raw occurrence, shifted one day forward, lands on the gap wall clock
100030. -/
def ruleGap : RRule :=
  { id := some 4,
    rrule_params :=
      { freq := Freq.DAILY, interval := 1, dtstart := 98590,
        count := none, until_ := none },
    rrule_exclusion_params := none,
    time_zone := tzGap,
    last_occurrence := some 90000,
    next_occurrence := some 99980,
    occurrence_handler_path := "app.G",
    related_object_id := none,
    related_object_handler_name := none,
    day_offset := some 1,
    time_last_handled := none }

/-- The C9 clone fixture: a fired rule whose progression is cloned with a
negative day offset. -/
def ruleCloneSrc : RRule :=
  { ruleDailyUTC with last_occurrence := some 2000, next_occurrence := some 2880 }

/-- The expected clone of `ruleCloneSrc` under `clone_with_day_offset (-1)`:
`next_occurrence` moves one day before the copied `last_occurrence`. -/
def ruleCloneNeg : RRule :=
  { ruleDailyUTC with
    id := some 9,
    last_occurrence := some 2000,
    next_occurrence := some 1440,
    day_offset := some (-1) }

/-- Counterexample for C9, violating the invariant with each of the three
offset-carrying writers.  (1) Refreshing the negative-offset rule at
now = 10 stores `next_occurrence = 0`, before the reference instant 10 and
before `last_occurrence = 5`.  (2) Updating the gap rule at now = 99990
sets `last_occurrence = 99980` but stores `next_occurrence = 99970`: the
day addition lands on the gap wall clock 100030 and the fleming
normalization keeps the standard offset's instant, one hour back.
(3) Cloning the fired rule with offset -1 copies `last_occurrence = 2000`
but stores `next_occurrence = 1440`.  In each case the invariant held
before the operation. -/
theorem invariant_counterexample :
    (ruleNegOffset.last_occurrence = some 5 ∧
      ruleNegOffset.next_occurrence = some 2880 ∧
      (5 : Int) ≤ 2880 ∧
      (ruleNegOffset.refresh_next_occurrence 10 none).next_occurrence = some 0 ∧
      (ruleNegOffset.refresh_next_occurrence 10 none).last_occurrence = some 5 ∧
      (0 : Int) < 5 ∧ (0 : Int) < 10) ∧
    (tzGap.WF ∧
      ruleGap.last_occurrence = some 90000 ∧
      ruleGap.next_occurrence = some 99980 ∧
      (90000 : Int) ≤ 99980 ∧
      (ruleGap.update_next_occurrence 99990 true).state.last_occurrence = some 99980 ∧
      (ruleGap.update_next_occurrence 99990 true).state.next_occurrence = some 99970 ∧
      (99970 : Int) < 99980) ∧
    (ruleCloneSrc.last_occurrence = some 2000 ∧
      ruleCloneSrc.next_occurrence = some 2880 ∧
      (2000 : Int) ≤ 2880 ∧
      ruleCloneSrc.clone_with_day_offset (-1) 9 = Except.ok ruleCloneNeg ∧
      ruleCloneNeg.last_occurrence = some 2000 ∧
      ruleCloneNeg.next_occurrence = some 1440 ∧
      (1440 : Int) < 2000) := by
  decide

/-- C9 amended: in a well-formed zone with a positive step, the occurrence
writers preserve the invariant when `day_offset` is null —
`update_next_occurrence`, when due, moves the old `next_occurrence` into
`last_occurrence` and any newly stored `next_occurrence` is strictly after
it, and otherwise leaves the state untouched; `refresh_next_occurrence`
stores only occurrences strictly after both now and the reference instant
(or leaves the field as it was); seeding never touches `last_occurrence`.
With a non-null `day_offset` the invariant can be violated by
`refresh_next_occurrence` (offset applied a second time), by
`update_next_occurrence` (the fleming day addition landing on a
spring-forward gap wall clock keeps the pre-addition offset and comes out
before the previous occurrence), and by `clone_with_day_offset` with a
negative offset (see the counterexample). -/
theorem invariant_amended (r : RRule) (now : Int) (hwf : r.time_zone.WF)
    (hstep : 0 < r.rrule_params.step) :
    (∀ save nxt, r.day_offset = none → r.next_occurrence = some nxt →
      ¬ now < nxt →
      (r.update_next_occurrence now save).state.last_occurrence = some nxt ∧
      ∀ v, (r.update_next_occurrence now save).state.next_occurrence = some v →
        nxt < v) ∧
    (∀ save, (r.next_occurrence = none →
        (r.update_next_occurrence now save).state = r) ∧
      ∀ nxt, r.next_occurrence = some nxt → now < nxt →
        (r.update_next_occurrence now save).state = r) ∧
    (∀ ct v, r.day_offset = none →
      (r.refresh_next_occurrence now ct).next_occurrence = some v →
      r.next_occurrence = some v ∨ (now < v ∧ ct.getD now < v)) ∧
    (∀ r2, r.set_date_objects = Except.ok r2 →
      r2.last_occurrence = r.last_occurrence) := by
  refine ⟨?_, ?_, ?_, ?_⟩
  · intro save nxt hk h hnlt
    unfold RRule.update_next_occurrence
    rw [h]
    dsimp only
    rw [if_neg hnlt]
    refine ⟨rfl, ?_⟩
    intro v hv
    exact RRule.get_next_occurrence_lt _ now nxt v hwf hstep hk hv
  · intro save
    constructor
    · intro h
      unfold RRule.update_next_occurrence
      rw [h]
    · intro nxt h hlt
      unfold RRule.update_next_occurrence
      rw [h]
      dsimp only
      rw [if_pos hlt]
  · intro ct v hk hv
    unfold RRule.refresh_next_occurrence at hv
    dsimp only at hv
    cases hcomp : (r.get_next_occurrence now (some (ct.getD now)) true false).1 with
    | some n =>
      rw [hcomp] at hv
      dsimp only at hv
      by_cases hpos : now < n
      · rw [if_pos hpos] at hv
        dsimp only at hv
        rw [r.offset_none hk] at hv
        injection hv with hv2
        subst hv2
        exact Or.inr ⟨hpos,
          RRule.get_next_occurrence_lt r now (ct.getD now) n hwf hstep hk hcomp⟩
      · rw [if_neg hpos] at hv
        exact Or.inl hv
    | none =>
      rw [hcomp] at hv
      cases hv
  · intro r2 h2
    unfold RRule.set_date_objects at h2
    split_ifs at h2 with hnew
    · cases hfirst : rruleSetFirst r.rrule_params r.rrule_exclusion_params with
      | none => rw [hfirst] at h2; cases h2
      | some d0 =>
        rw [hfirst] at h2
        cases h2
        rfl
    · cases h2
      rfl

/-- Witness for C9 amended: the offset-free daily fixture advances from 0
to 1440, keeping `last_occurrence` strictly before the new
`next_occurrence`. -/
theorem invariant_amended_witness :
    (ruleDailyUTC.update_next_occurrence 10 true).state.last_occurrence = some 0 ∧
    (0 : Int) < 1440 := by
  have h := (invariant_amended ruleDailyUTC 10 (by decide) (by decide)).1
    true 0 rfl rfl (by decide)
  exact ⟨h.1, h.2 1440 (by decide)⟩

/-- A partition that is inhabited yields a window representative. -/
theorem bestForPath_isSome (p : String) (l : List RRule) (x : RRule)
    (hx : x ∈ l) (hp : x.occurrence_handler_path = p) :
    ∃ r, bestForPath p l = some r := by
  cases hb : bestForPath p l with
  | none => exact absurd hp (bestForPath_none p l hb x hx)
  | some r => exact ⟨r, rfl⟩

/-- Filtering a prefix of a list yields a prefix of the filtered list. -/
theorem filter_take_prefix {α : Type} (p : α → Bool) (n : Nat) (l : List α) :
    ((l.take n).filter p).IsPrefix (l.filter p) := by
  refine ⟨(l.drop n).filter p, ?_⟩
  rw [← List.filter_append, List.take_append_drop]

/-- C3: handler-class dispatch selects, per distinct handler path with an
overdue rule, exactly one representative overdue rule — one with the
minimal `next_occurrence` within its path (existence without a limit for
every resolvable overdue path, uniqueness via the distinct-paths clause);
the selected list is ordered by `time_last_handled` ascending nulls first,
then `next_occurrence`, then handler path; a non-zero limit `n` caps the
selection at `n` distinct handler classes; and the limited selection is a
prefix of the unlimited fairness-ordered selection — the first `n` classes
in that order. -/
theorem overdue_handler_selection_spec (store : List RRule) (now : Int)
    (extra : RRule → Bool) (limit : Option Nat) (resolves : String → Bool) :
    (∀ r ∈ RRuleManager.overdue_handler_class_instances store now extra limit resolves,
      r ∈ store ∧ r.isOverdue now = true ∧ extra r = true ∧
      ∀ r' ∈ store, r'.isOverdue now = true → extra r' = true →
        r'.occurrence_handler_path = r.occurrence_handler_path →
        optLeB r.next_occurrence r'.next_occurrence = true) ∧
    (∀ r0 ∈ store, r0.isOverdue now = true → extra r0 = true →
      resolves r0.occurrence_handler_path = true → limit = none →
      ∃ r ∈ RRuleManager.overdue_handler_class_instances store now extra limit resolves,
        r.occurrence_handler_path = r0.occurrence_handler_path) ∧
    ((RRuleManager.overdue_handler_class_instances store now extra limit resolves).map
      (fun r => r.occurrence_handler_path)).Nodup ∧
    (RRuleManager.overdue_handler_class_instances store now extra limit
      resolves).Pairwise fairR ∧
    (∀ n, limit = some n → n ≠ 0 →
      (RRuleManager.overdue_handler_class_instances store now extra limit
        resolves).length ≤ n) ∧
    (∀ n, limit = some n → n ≠ 0 →
      (RRuleManager.overdue_handler_class_instances store now extra (some n)
        resolves).IsPrefix
        (RRuleManager.overdue_handler_class_instances store now extra none
          resolves)) := by
  have hsub : (RRuleManager.overdue_handler_class_instances store now extra limit
      resolves).Sublist
      (List.insertionSort fairR ((pathsOf (overdueRows store now extra)).filterMap
        (fun p => bestForPath p (overdueRows store now extra)))) := by
    unfold RRuleManager.overdue_handler_class_instances
    exact (List.filter_sublist _).trans (applyLimit_sublist _ _)
  have hperm := List.perm_insertionSort fairR
    ((pathsOf (overdueRows store now extra)).filterMap
      (fun p => bestForPath p (overdueRows store now extra)))
  refine ⟨?_, ?_, ?_, ?_, ?_, ?_⟩
  · intro r hr
    have hr1 := hperm.subset (hsub.subset hr)
    obtain ⟨p, hp, hbest⟩ := List.mem_filterMap.mp hr1
    obtain ⟨hrrows, hrpath⟩ := bestForPath_mem p _ r hbest
    have hrf : r ∈ store ∧ (r.isOverdue now && extra r) = true := by
      unfold overdueRows at hrrows
      exact List.mem_filter.mp hrrows
    obtain ⟨hov, hex⟩ := Bool.and_eq_true_iff.mp hrf.2
    refine ⟨hrf.1, hov, hex, ?_⟩
    intro r' hr' hov' hex' hpath'
    have hr'rows : r' ∈ overdueRows store now extra := by
      unfold overdueRows
      exact List.mem_filter.mpr ⟨hr', by rw [hov', hex']; rfl⟩
    exact bestForPath_min p _ r hbest r' hr'rows (by rw [hpath', hrpath])
  · intro r0 h0mem h0ov h0ex h0res hlim
    subst hlim
    have h0rows : r0 ∈ overdueRows store now extra := by
      unfold overdueRows
      exact List.mem_filter.mpr ⟨h0mem, by rw [h0ov, h0ex]; rfl⟩
    have hp : r0.occurrence_handler_path ∈ pathsOf (overdueRows store now extra) := by
      unfold pathsOf
      exact List.mem_dedup.mpr (List.mem_map_of_mem _ h0rows)
    obtain ⟨r, hbest⟩ := bestForPath_isSome _ _ r0 h0rows rfl
    have hrpath : r.occurrence_handler_path = r0.occurrence_handler_path :=
      (bestForPath_mem _ _ r hbest).2
    refine ⟨r, ?_, hrpath⟩
    unfold RRuleManager.overdue_handler_class_instances
    refine List.mem_filter.mpr ⟨?_, ?_⟩
    · exact (List.perm_insertionSort fairR _).symm.subset
        (List.mem_filterMap.mpr ⟨_, hp, hbest⟩)
    · rw [hrpath]
      exact h0res
  · have hn0 := nodup_paths_filterMap (overdueRows store now extra)
      (pathsOf (overdueRows store now extra)) (List.nodup_dedup _)
    have hn1 := ((hperm.map (fun r => r.occurrence_handler_path)).nodup_iff).mpr hn0
    exact hn1.sublist (hsub.map _)
  · exact (List.sorted_insertionSort fairR _).sublist hsub
  · intro n hn hn0
    subst hn
    have h1 : (RRuleManager.overdue_handler_class_instances store now extra (some n)
        resolves).length ≤
        (applyLimit (some n) (List.insertionSort fairR
          ((pathsOf (overdueRows store now extra)).filterMap
            (fun p => bestForPath p (overdueRows store now extra))))).length := by
      unfold RRuleManager.overdue_handler_class_instances
      exact List.length_filter_le _ _
    have h2 : (applyLimit (some n) (List.insertionSort fairR
        ((pathsOf (overdueRows store now extra)).filterMap
          (fun p => bestForPath p (overdueRows store now extra))))).length ≤ n := by
      simp only [applyLimit]
      rw [if_neg hn0]
      exact List.length_take_le n _
    exact le_trans h1 h2
  · intro n hn hn0
    unfold RRuleManager.overdue_handler_class_instances
    simp only [applyLimit]
    rw [if_neg hn0]
    exact filter_take_prefix _ n _

/-- Fixture for C3's witness: one overdue rule of handler class `app.A`
(already handled once). -/
def selRuleA : RRule :=
  { ruleDailyUTC with
    id := some 1, occurrence_handler_path := "app.A",
    next_occurrence := some 50, time_last_handled := some 7 }

/-- Fixture for C3's witness: a never-handled overdue `app.B` rule due at
30, the earliest of its class. -/
def selRuleB : RRule :=
  { ruleDailyUTC with
    id := some 2, occurrence_handler_path := "app.B",
    next_occurrence := some 30, time_last_handled := none }

/-- Fixture for C3's witness: a second overdue `app.B` rule due at 40. -/
def selRuleB2 : RRule :=
  { ruleDailyUTC with
    id := some 3, occurrence_handler_path := "app.B",
    next_occurrence := some 40, time_last_handled := none }

/-- Fixture store for C3's witness. -/
def selStoreA : List RRule := [selRuleA, selRuleB, selRuleB2]

/-- Witness for C3: on the fixture store a representative of the overdue
class `app.B` is selected, the selection has distinct handler paths, is
fairness-ordered, respects the limit of 2, and the limited selection is a
prefix of the unlimited one. -/
theorem overdue_handler_selection_spec_witness :
    (∃ r ∈ RRuleManager.overdue_handler_class_instances selStoreA 100 (fun _ => true)
        none (fun _ => true), r.occurrence_handler_path = "app.B") ∧
    ((RRuleManager.overdue_handler_class_instances selStoreA 100 (fun _ => true)
      (some 2) (fun _ => true)).map (fun r => r.occurrence_handler_path)).Nodup ∧
    (RRuleManager.overdue_handler_class_instances selStoreA 100 (fun _ => true)
      (some 2) (fun _ => true)).Pairwise fairR ∧
    (RRuleManager.overdue_handler_class_instances selStoreA 100 (fun _ => true)
      (some 2) (fun _ => true)).length ≤ 2 ∧
    (RRuleManager.overdue_handler_class_instances selStoreA 100 (fun _ => true)
      (some 2) (fun _ => true)).IsPrefix
      (RRuleManager.overdue_handler_class_instances selStoreA 100 (fun _ => true)
        none (fun _ => true)) := by
  have h := overdue_handler_selection_spec selStoreA 100 (fun _ => true)
    (some 2) (fun _ => true)
  have h0 := overdue_handler_selection_spec selStoreA 100 (fun _ => true)
    none (fun _ => true)
  refine ⟨?_, h.2.2.1, h.2.2.2.1, h.2.2.2.2.1 2 rfl (by decide),
    h.2.2.2.2.2 2 rfl (by decide)⟩
  exact h0.2.1 selRuleB (by decide) (by decide) rfl rfl rfl

/-- `update_next_occurrence` never changes the primary key. -/
theorem RRule.update_state_id (r : RRule) (now : Int) (save : Bool) :
    (r.update_next_occurrence now save).state.id = r.id := by
  rcases h : r.next_occurrence with _ | nxt
  · unfold RRule.update_next_occurrence
    rw [h]
  · unfold RRule.update_next_occurrence
    rw [h]
    by_cases hlt : now < nxt
    · simp only [if_pos hlt]
    · simp only [if_neg hlt]

/-- A row whose primary key matches no advanced object is untouched by the
bulk update. -/
theorem bulkUpdateRow_skip {advanced : List RRule} {x : RRule}
    (h : ∀ a ∈ advanced, a.id ≠ x.id) : bulkUpdateRow advanced x = x := by
  unfold bulkUpdateRow
  have hfind : advanced.find? (fun a => a.id == x.id) = none := by
    rw [List.find?_eq_none]
    intro a ha
    simp only [beq_iff_eq]
    exact h a ha
  rw [hfind]

/-- A row whose primary key is among the fetched ids gets its
`time_last_handled` stamped. -/
theorem stampTLH_mem {ids : List (Option Int)} {now : Int} {x : RRule}
    (h : x.id ∈ ids) : stampTLH ids now x = { x with time_last_handled := some now } := by
  unfold stampTLH
  rw [if_pos (List.elem_eq_true_of_mem h)]

/-- The fetched-rows predicate of related-model dispatch holds for an
overdue rule with both reference fields set that passes the filters. -/
theorem related_fetch_pred {r : RRule} {now : Int} {filters : RRule → Bool}
    (hov : r.isOverdue now = true) (hname : r.related_object_handler_name.isSome = true)
    (hoid : r.related_object_id.isSome = true) (hfil : filters r = true) :
    (r.isOverdue now && r.related_object_handler_name.isSome &&
      r.related_object_id.isSome && filters r) = true := by
  rw [hov, hname, hoid, hfil]
  rfl

/-- C4 amended: when an overdue related-object rule's method name does not
exist on its related object (and no handler hands back a rule with its
primary key), `process_related_model_handlers` completes as a total
function, leaves the rule's `next_occurrence` and `last_occurrence`
untouched — but it does stamp `time_last_handled` with the processing
time, because the rule was fetched and counted as considered. -/
theorem related_missing_method_amended (env : RelatedEnv) (store : List RRule)
    (now : Int) (filters : RRule → Bool) (r : RRule) (oid : Int) (mname : String)
    (hmem : r ∈ store) (hov : r.isOverdue now = true)
    (hoid : r.related_object_id = some oid)
    (hname : r.related_object_handler_name = some mname)
    (hfil : filters r = true)
    (_hmethod : env.hasMethod oid mname = false)
    (hcall : ∀ oid2 mn2 r2 x, env.callMethod oid2 mn2 r2 = some x → x.id ≠ r.id) :
    ∃ f : RRule → RRule,
      (RRuleManager.process_related_model_handlers env store now none filters).1 =
        store.map f ∧
      f r = { r with time_last_handled := some now } := by
  unfold RRuleManager.process_related_model_handlers
    RRuleManager.update_next_occurrences
  dsimp only
  rw [List.map_map]
  refine ⟨_, rfl, ?_⟩
  simp only [Function.comp_apply]
  have hstep : ∀ (A : List RRule) (I : List (Option Int)),
      (∀ a ∈ A, a.id ≠ r.id) → r.id ∈ I →
      stampTLH I now (bulkUpdateRow A r) = { r with time_last_handled := some now } := by
    intro A I hA hI
    rw [bulkUpdateRow_skip hA, stampTLH_mem hI]
  refine hstep _ _ ?_ ?_
  · intro a ha
    rcases List.mem_map.mp ha with ⟨o, ho, rfl⟩
    rw [RRule.update_state_id]
    rcases List.mem_filterMap.mp ho with ⟨rr, hrr, hfm⟩
    split at hfm
    · rename_i oid2 mn2
      split_ifs at hfm
      exact hcall _ _ _ _ hfm
    · cases hfm
  · refine List.mem_map_of_mem _ ?_
    exact ((List.perm_insertionSort relatedR _).symm.subset
      (List.mem_filter.mpr ⟨hmem,
        related_fetch_pred hov (by rw [hname]; rfl) (by rw [hoid]; rfl) hfil⟩))

/-- The C4 fixture: an overdue rule referring to method `on_expire` of
related object 7. -/
def relRule : RRule :=
  { ruleDailyUTC with
    next_occurrence := some 40,
    related_object_id := some 7,
    related_object_handler_name := some "on_expire",
    occurrence_handler_path := "app.R" }

/-- The C4 environment: no related object has any method. -/
def envNoMethod : RelatedEnv :=
  { hasMethod := fun _ _ => false, callMethod := fun _ _ _ => none }

/-- Counterexample for C4: processing the fixture store completes and
leaves `next_occurrence` at 40, but `time_last_handled` changes from null
to the processing time 50, so the claim that both fields are unchanged is
false. -/
theorem related_missing_method_counterexample :
    (RRuleManager.process_related_model_handlers envNoMethod [relRule] 50 none
      (fun _ => true)).1 =
      [{ relRule with time_last_handled := some 50 }] ∧
    relRule.time_last_handled = none ∧
    ({ relRule with time_last_handled := some 50 }).next_occurrence =
      relRule.next_occurrence ∧
    ({ relRule with time_last_handled := some 50 }).time_last_handled ≠
      relRule.time_last_handled := by
  decide

/-- Witness for C4 amended: the fixture rule is stamped but otherwise kept
intact. -/
theorem related_missing_method_amended_witness :
    ∃ f : RRule → RRule,
      (RRuleManager.process_related_model_handlers envNoMethod [relRule] 50 none
        (fun _ => true)).1 = [relRule].map f ∧
      f relRule = { relRule with time_last_handled := some 50 } :=
  related_missing_method_amended envNoMethod [relRule] 50 (fun _ => true) relRule
    7 "on_expire" (List.mem_singleton.mpr rfl) (by decide) rfl rfl rfl rfl
    (fun oid2 mn2 r2 x hx => by cases hx)
